import Mathlib

/-!
Shallow embedding of the nRF5x TRNG driver (`src/chips/nrf5x/src/trng.rs`)
and proofs about its specification.

The driver collects four hardware random bytes, one per interrupt, into a
32-bit word and hands the word to a registered client through a one-shot
iterator.  We model the driver state (`index`, `randomness`, `client`),
the peripheral registers touched by the driver (`inten`, `intenset`,
`intenclr`, `event_valrdy`, `task_start`, `value`) and the NVIC state
(`nvic_enabled`, `nvic_pending`) in one record.  Machine integers are
modelled as `Nat` with explicit `% 2 ^ 32` where the Rust `u32` arithmetic
may truncate.  The client callback (`rng::Client::randomness_available`)
can only interact with the driver by drawing from the `TrngIter` it is
handed and by returning a `Continue` value, so we model a client as a
number of iterator draws plus a function from the drawn results to the
returned `Continue`.  `handle_interrupt` additionally returns the list of
observable actions it performed (register-disable sequence, value-register
reads, callback invocations, `start_rng` calls) so that claims about "how
many reads" or "was generation re-armed" can be stated.
-/

namespace TrngModel

/-- Embeds `kernel::hil::rng::Continue`: the value a client returns from
`randomness_available`. -/
inductive Continue where
  | More : Continue
  | Done : Continue
deriving DecidableEq, Repr

/-- Model of an `rng::Client`: inside `randomness_available` it draws from
the `TrngIter` some number of times and returns a `Continue` that may
depend on what it drew. -/
structure ClientModel where
  draws : Nat
  ret : List (Option Nat) → Continue

/-- The full machine state: the `Trng` struct's cells (`index`,
`randomness`, `client`), the RNG peripheral registers the driver touches,
and the NVIC state for the RNG interrupt source.  `value` is the content
of the peripheral's VALUE register (the current hardware random byte). -/
structure Machine where
  index : Nat
  randomness : Nat
  client : Option ClientModel
  inten : Nat
  intenset : Nat
  intenclr : Nat
  event_valrdy : Nat
  task_start : Nat
  value : Nat
  nvic_enabled : Bool
  nvic_pending : Bool

/-- Observable actions performed by `handle_interrupt`. -/
inductive Event where
  | disableInts : Event
  | disableNvic : Event
  | clearPending : Event
  | readValue : Event
  | startRng : Event
  | callbackInvoked : List (Option Nat) → Event
deriving DecidableEq, Repr

/-- Embeds `Trng::disable_interrupts`: `regs.intenclr.set(1); regs.inten.set(0)`. -/
def disable_interrupts (m : Machine) : Machine :=
  { m with intenclr := 1, inten := 0 }

/-- Embeds `Trng::disable_nvic`: `nvic::disable(NvicIdx::RNG)`. -/
def disable_nvic (m : Machine) : Machine :=
  { m with nvic_enabled := false }

/-- Embeds `nvic::clear_pending(NvicIdx::RNG)`. -/
def clear_pending (m : Machine) : Machine :=
  { m with nvic_pending := false }

/-- Embeds `Trng::enable_interrupts`: `regs.inten.set(1); regs.intenset.set(1)`. -/
def enable_interrupts (m : Machine) : Machine :=
  { m with inten := 1, intenset := 1 }

/-- Embeds `Trng::enable_nvic`: `nvic::enable(NvicIdx::RNG)`. -/
def enable_nvic (m : Machine) : Machine :=
  { m with nvic_enabled := true }

/-- Embeds `Trng::start_rng`: clear `event_valrdy`, enable NVIC, enable the
peripheral interrupt bits, then write the START task. -/
def start_rng (m : Machine) : Machine :=
  let m1 := { m with event_valrdy := 0 }
  let m2 := enable_nvic m1
  let m3 := enable_interrupts m2
  { m3 with task_start := 1 }

/-- Embeds `<Trng as rng::RNG>::get`: `self.start_rng()`. -/
def trng_get (m : Machine) : Machine :=
  start_rng m

/-- Embeds `Trng::set_client`. -/
def set_client (m : Machine) (c : ClientModel) : Machine :=
  { m with client := some c }

/-- Embeds `TrngIter::next`: if `index == 4` yield the accumulated word and reset
`index` and `randomness` to 0, otherwise yield nothing and change
nothing. -/
def trngIter_next (m : Machine) : Option Nat × Machine :=
  if m.index = 4 then
    (some m.randomness, { m with index := 0, randomness := 0 })
  else
    (none, m)

/-- Draw `n` times from the `TrngIter`, collecting the results. -/
def drawN : Nat → Machine → List (Option Nat) × Machine
  | 0, m => ([], m)
  | n + 1, m =>
    let p := trngIter_next m
    let q := drawN n p.2
    (p.1 :: q.1, q.2)

/-- Embeds `Trng::handle_interrupt`.  First the disable sequence
(`disable_interrupts`, `disable_nvic`, `clear_pending`), then the match on
`index`: `0...3` reads the VALUE register, ORs the byte into the
accumulator at byte position `index` (with `u32` truncation of the shift),
increments `index` and calls `start_rng`; `4` maps over the client, runs
the callback with a fresh `TrngIter`, and calls `start_rng` unless the
callback returned `Done`; any other value resets `index` and `randomness`
to 0.  The second component is the list of actions performed. -/
def handle_interrupt (m : Machine) : Machine × List Event :=
  let md := clear_pending (disable_nvic (disable_interrupts m))
  if md.index ≤ 3 then
    let r := md.value
    let rn := md.randomness ||| ((r <<< (8 * md.index)) % 2 ^ 32)
    (start_rng { md with randomness := rn, index := md.index + 1 },
     [Event.disableInts, Event.disableNvic, Event.clearPending,
      Event.readValue, Event.startRng])
  else if md.index = 4 then
    match md.client with
    | some cb =>
      let dr := drawN cb.draws md
      if cb.ret dr.1 ≠ Continue.Done then
        (start_rng dr.2,
         [Event.disableInts, Event.disableNvic, Event.clearPending,
          Event.callbackInvoked dr.1, Event.startRng])
      else
        (dr.2,
         [Event.disableInts, Event.disableNvic, Event.clearPending,
          Event.callbackInvoked dr.1])
    | none =>
      (md, [Event.disableInts, Event.disableNvic, Event.clearPending])
  else
    ({ md with index := 0, randomness := 0 },
     [Event.disableInts, Event.disableNvic, Event.clearPending])

/-- A concrete machine for tests and witnesses: registers zeroed, NVIC
idle. -/
def mkM (i rn : Nat) (c : Option ClientModel) (v : Nat) : Machine :=
  { index := i, randomness := rn, client := c,
    inten := 0, intenset := 0, intenclr := 0,
    event_valrdy := 0, task_start := 0, value := v,
    nvic_enabled := false, nvic_pending := false }

/-- The state at the entry of the match in `handle_interrupt`, after the
disable sequence. -/
def entryState (m : Machine) : Machine :=
  clear_pending (disable_nvic (disable_interrupts m))

theorem entryState_index (m : Machine) : (entryState m).index = m.index := rfl

theorem entryState_randomness (m : Machine) :
    (entryState m).randomness = m.randomness := rfl

theorem entryState_client (m : Machine) : (entryState m).client = m.client := rfl

theorem entryState_value (m : Machine) : (entryState m).value = m.value := rfl

theorem start_rng_index (m : Machine) : (start_rng m).index = m.index := rfl

theorem start_rng_randomness (m : Machine) :
    (start_rng m).randomness = m.randomness := rfl

theorem handle_interrupt_eq (m : Machine) :
    handle_interrupt m =
      (if (entryState m).index ≤ 3 then
        (start_rng { entryState m with
            randomness := (entryState m).randomness |||
              (((entryState m).value <<< (8 * (entryState m).index)) % 2 ^ 32),
            index := (entryState m).index + 1 },
         [Event.disableInts, Event.disableNvic, Event.clearPending,
          Event.readValue, Event.startRng])
      else if (entryState m).index = 4 then
        match (entryState m).client with
        | some cb =>
          if cb.ret (drawN cb.draws (entryState m)).1 ≠ Continue.Done then
            (start_rng (drawN cb.draws (entryState m)).2,
             [Event.disableInts, Event.disableNvic, Event.clearPending,
              Event.callbackInvoked (drawN cb.draws (entryState m)).1,
              Event.startRng])
          else
            ((drawN cb.draws (entryState m)).2,
             [Event.disableInts, Event.disableNvic, Event.clearPending,
              Event.callbackInvoked (drawN cb.draws (entryState m)).1])
        | none =>
          (entryState m,
           [Event.disableInts, Event.disableNvic, Event.clearPending])
      else
        ({ entryState m with index := 0, randomness := 0 },
         [Event.disableInts, Event.disableNvic, Event.clearPending])) := rfl

/-- In a Collecting state the handler increments `index`. -/
theorem hi_collect_index (m : Machine) (h : m.index ≤ 3) :
    (handle_interrupt m).1.index = m.index + 1 := by
  rw [handle_interrupt_eq, entryState_index, if_pos h]
  rfl

/-- In a Collecting state the handler ORs the (truncated-shift) byte into
the accumulator. -/
theorem hi_collect_randomness (m : Machine) (h : m.index ≤ 3) :
    (handle_interrupt m).1.randomness =
      m.randomness ||| ((m.value <<< (8 * m.index)) % 2 ^ 32) := by
  rw [handle_interrupt_eq, entryState_index, if_pos h]
  rfl

/-- In a Collecting state the other cells are untouched. -/
theorem hi_collect_client (m : Machine) (h : m.index ≤ 3) :
    (handle_interrupt m).1.client = m.client := by
  rw [handle_interrupt_eq, entryState_index, if_pos h]
  rfl

/-- In a Collecting state the emitted actions are fixed. -/
theorem hi_collect_events (m : Machine) (h : m.index ≤ 3) :
    (handle_interrupt m).2 =
      [Event.disableInts, Event.disableNvic, Event.clearPending,
       Event.readValue, Event.startRng] := by
  rw [handle_interrupt_eq, entryState_index, if_pos h]

/-- With `index = 4` and no client the match arm does nothing. -/
theorem hi_ready_none (m : Machine) (h : m.index = 4) (hc : m.client = none) :
    handle_interrupt m =
      (entryState m,
       [Event.disableInts, Event.disableNvic, Event.clearPending]) := by
  rw [handle_interrupt_eq, entryState_index, entryState_client, h, hc]
  rfl

/-- With `index = 4` and a registered client, the handler invokes the
callback on the post-disable state and re-arms unless it returned
`Done`. -/
theorem hi_ready_some (m : Machine) (cb : ClientModel) (h : m.index = 4)
    (hc : m.client = some cb) :
    handle_interrupt m =
      (if cb.ret (drawN cb.draws (entryState m)).1 ≠ Continue.Done then
        (start_rng (drawN cb.draws (entryState m)).2,
         [Event.disableInts, Event.disableNvic, Event.clearPending,
          Event.callbackInvoked (drawN cb.draws (entryState m)).1,
          Event.startRng])
      else
        ((drawN cb.draws (entryState m)).2,
         [Event.disableInts, Event.disableNvic, Event.clearPending,
          Event.callbackInvoked (drawN cb.draws (entryState m)).1])) := by
  rw [handle_interrupt_eq, entryState_index, entryState_client, h, hc]
  rfl

/-- With `index > 4` the handler resets `index` and `randomness`. -/
theorem hi_invalid (m : Machine) (h : 4 < m.index) :
    handle_interrupt m =
      ({ entryState m with index := 0, randomness := 0 },
       [Event.disableInts, Event.disableNvic, Event.clearPending]) := by
  rw [handle_interrupt_eq, entryState_index, if_neg (by omega), if_neg (by omega)]

/-- The results and the `index`/`randomness` outcome of a draw sequence
depend only on `index` and `randomness`. -/
theorem drawN_congr (n : Nat) (m m' : Machine) (h1 : m.index = m'.index)
    (h2 : m.randomness = m'.randomness) :
    (drawN n m).1 = (drawN n m').1 ∧
    (drawN n m).2.index = (drawN n m').2.index ∧
    (drawN n m).2.randomness = (drawN n m').2.randomness := by
  induction n generalizing m m' with
  | zero => exact ⟨rfl, h1, h2⟩
  | succ n ih =>
    by_cases h4 : m.index = 4
    · have h4' : m'.index = 4 := h1 ▸ h4
      have l1 : trngIter_next m =
          (some m.randomness, { m with index := 0, randomness := 0 }) := by
        simp [trngIter_next, h4]
      have l2 : trngIter_next m' =
          (some m'.randomness, { m' with index := 0, randomness := 0 }) := by
        simp [trngIter_next, h4']
      obtain ⟨e1, e2, e3⟩ := ih { m with index := 0, randomness := 0 }
        { m' with index := 0, randomness := 0 } rfl rfl
      simp only [drawN, l1, l2]
      exact ⟨by rw [h2, e1], e2, e3⟩
    · have h4' : ¬m'.index = 4 := h1 ▸ h4
      have l1 : trngIter_next m = (none, m) := by simp [trngIter_next, h4]
      have l2 : trngIter_next m' = (none, m') := by simp [trngIter_next, h4']
      obtain ⟨e1, e2, e3⟩ := ih m m' h1 h2
      simp only [drawN, l1, l2]
      exact ⟨by rw [e1], e2, e3⟩

/-- A hardware byte shifted to any of the four byte positions fits in 32
bits, so the `u32` truncation of the shift is the identity. -/
theorem byte_shift_mod (b e : Nat) (hb : b < 256) (he : e ≤ 3) :
    (b <<< (8 * e)) % 2 ^ 32 = b <<< (8 * e) := by
  apply Nat.mod_eq_of_lt
  rw [Nat.shiftLeft_eq]
  interval_cases e <;> omega

/-- Bitwise OR of two `n`-bit numbers is an `n`-bit number. -/
theorem or_lt_two_pow {x y n : Nat} (hx : x < 2 ^ n) (hy : y < 2 ^ n) :
    x ||| y < 2 ^ n :=
  Nat.bitwise_lt hx hy

/-- Number of reads of the VALUE register recorded in an action list. -/
def countReads : List Event → Nat
  | [] => 0
  | Event.readValue :: es => countReads es + 1
  | _ :: es => countReads es

/-- Deliver a sequence of hardware bytes: for each byte, the environment
places it in the VALUE register and the "value ready" interrupt fires. -/
def feedBytes (m : Machine) : List Nat → Machine
  | [] => m
  | b :: bs => feedBytes (handle_interrupt { m with value := b }).1 bs

/-- The word assembled from bytes `bs` when accumulation starts at byte
position `e`. -/
def wordFrom : Nat → List Nat → Nat
  | _, [] => 0
  | e, b :: bs => b <<< (8 * e) ||| wordFrom (e + 1) bs

/-- One collecting interrupt with byte `b` in the VALUE register. -/
theorem feed_step (m : Machine) (b : Nat) (h : m.index ≤ 3) (hb : b < 256) :
    (handle_interrupt { m with value := b }).1.index = m.index + 1 ∧
    (handle_interrupt { m with value := b }).1.randomness =
      m.randomness ||| b <<< (8 * m.index) := by
  refine ⟨hi_collect_index { m with value := b } h, ?_⟩
  rw [hi_collect_randomness { m with value := b } h]
  show m.randomness ||| (b <<< (8 * m.index)) % 2 ^ 32 = _
  rw [byte_shift_mod b m.index hb h]

/-- Feeding at most `4 - index` bytes accumulates them at successive byte
positions without disturbing the bits already present. -/
theorem feedBytes_spec (bs : List Nat) (m : Machine)
    (h : m.index + bs.length ≤ 4) (hb : ∀ b ∈ bs, b < 256) :
    (feedBytes m bs).index = m.index + bs.length ∧
    (feedBytes m bs).randomness = m.randomness ||| wordFrom m.index bs := by
  induction bs generalizing m with
  | nil =>
    simp [feedBytes, wordFrom]
  | cons b bs ih =>
    have h3 : m.index ≤ 3 := by
      simp only [List.length_cons] at h
      omega
    obtain ⟨i1, r1⟩ := feed_step m b h3 (hb b (by simp))
    obtain ⟨i2, r2⟩ :=
      ih (handle_interrupt { m with value := b }).1
        (by rw [i1]; simp only [List.length_cons] at h ⊢; omega)
        (fun x hx => hb x (by simp [hx]))
    constructor
    · rw [feedBytes, i2, i1, List.length_cons]
      omega
    · rw [feedBytes, r2, i1, r1, wordFrom, Nat.lor_assoc]

/-- One iterator draw preserves the accumulator invariant. -/
theorem trngIter_next_inv (m : Machine) (h1 : m.index ≤ 4)
    (h2 : m.randomness < 2 ^ (8 * m.index)) :
    (trngIter_next m).2.index ≤ 4 ∧
    (trngIter_next m).2.randomness < 2 ^ (8 * (trngIter_next m).2.index) := by
  by_cases h4 : m.index = 4
  · have l : trngIter_next m =
        (some m.randomness, { m with index := 0, randomness := 0 }) := by
      simp [trngIter_next, h4]
    rw [l]
    exact ⟨by show (0 : Nat) ≤ 4; decide, by show (0 : Nat) < 2 ^ (8 * 0); decide⟩
  · have l : trngIter_next m = (none, m) := by simp [trngIter_next, h4]
    rw [l]
    exact ⟨h1, h2⟩

/-- Any number of iterator draws preserves the accumulator invariant. -/
theorem drawN_inv (n : Nat) (m : Machine) (h1 : m.index ≤ 4)
    (h2 : m.randomness < 2 ^ (8 * m.index)) :
    (drawN n m).2.index ≤ 4 ∧
    (drawN n m).2.randomness < 2 ^ (8 * (drawN n m).2.index) := by
  induction n generalizing m with
  | zero => exact ⟨h1, h2⟩
  | succ n ih =>
    have hs := trngIter_next_inv m h1 h2
    exact ih (trngIter_next m).2 hs.1 hs.2

/-- States of the `index`/`randomness` cells reachable from the freshly
constructed driver (`Trng::new`: `index = 0`, `randomness = 0`) by
interrupts delivering hardware bytes in `0..255` and by iterator draws,
with the environment free to change the other machine components (client
registration, register contents) between steps. -/
inductive Reachable : Nat → Nat → Prop where
  | init : Reachable 0 0
  | step (m : Machine) : Reachable m.index m.randomness → m.value < 256 →
      Reachable (handle_interrupt m).1.index (handle_interrupt m).1.randomness
  | draw (m : Machine) : Reachable m.index m.randomness →
      Reachable (trngIter_next m).2.index (trngIter_next m).2.randomness

example : (handle_interrupt (mkM 0 0 none 7)).1.index = 1 := rfl
example : (handle_interrupt (mkM 0 0 none 7)).1.randomness = 7 := rfl
example : (handle_interrupt (mkM 1 7 none 2)).1.randomness = 519 := rfl
example : (handle_interrupt (mkM 4 7 none 2)).1.index = 4 := rfl
example : (handle_interrupt (mkM 5 7 none 2)).1.index = 0 := rfl
example : (trngIter_next (mkM 4 99 none 0)).1 = some 99 := rfl

/-- C1: four successive interrupts delivering bytes `b0..b3` (each below
256) from the state `index = 0`, `randomness = 0` assemble the word
`b0 ||| b1 <<< 8 ||| b2 <<< 16 ||| b3 <<< 24` — byte 0 in the
least-significant 8 bits, byte 3 in the most-significant 8 bits — and the
Delivery Iterator subsequently yields exactly that word. -/
theorem C1_word_little_endian (m : Machine) (b0 b1 b2 b3 : Nat)
    (h0 : m.index = 0) (hr : m.randomness = 0)
    (hb0 : b0 < 256) (hb1 : b1 < 256) (hb2 : b2 < 256) (hb3 : b3 < 256) :
    (trngIter_next (feedBytes m [b0, b1, b2, b3])).1 =
      some (b0 ||| b1 <<< 8 ||| b2 <<< 16 ||| b3 <<< 24) := by
  obtain ⟨hi, hrand⟩ := feedBytes_spec [b0, b1, b2, b3] m
    (by simp only [List.length_cons, List.length_nil]; omega)
    (by intro b hbm; fin_cases hbm <;> assumption)
  have hidx : (feedBytes m [b0, b1, b2, b3]).index = 4 := by
    rw [hi, h0]
    rfl
  have hword : (feedBytes m [b0, b1, b2, b3]).randomness =
      b0 ||| b1 <<< 8 ||| b2 <<< 16 ||| b3 <<< 24 := by
    rw [hrand, hr, h0]
    simp only [wordFrom, Nat.zero_or]
    norm_num [Nat.shiftLeft_zero, Nat.lor_assoc]
  simp [trngIter_next, hidx, hword]

/-- C1 witness: bytes `0x78 0x56 0x34 0x12` assemble into `0x12345678`. -/
theorem C1_witness :
    (trngIter_next (feedBytes (mkM 0 0 none 0) [120, 86, 52, 18])).1 =
      some (120 ||| 86 <<< 8 ||| 52 <<< 16 ||| 18 <<< 24) :=
  C1_word_little_endian (mkM 0 0 none 0) 120 86 52 18 rfl rfl
    (by decide) (by decide) (by decide) (by decide)

/-- The C2 scenario: `get()` with no consumer registered, four bytes
(`1, 1, 1, 1`) collected via four interrupts, then the resulting fifth
interrupt runs in the Ready state with no client. -/
def c2Run : Machine × List Event :=
  handle_interrupt (feedBytes (trng_get (mkM 0 0 none 0)) [1, 1, 1, 1])

/-- C2 counterexample: in the claimed scenario `index` does not remain at
0 — it stays at 4 (and the accumulator retains the completed word
`0x01010101`), refuting the claim that byteIndex and the accumulator
remain at 0. -/
theorem C2_counterexample :
    ¬(c2Run.1.index = 0 ∧ c2Run.1.randomness = 0) := by
  intro h
  exact absurd h.1 (by decide)

/-- C2 (amended): when `handle_interrupt` runs with `index = 4` and no
client registered, no callback is invoked, the word is not delivered, and
generation is not re-armed; but `index` stays at 4 and the accumulator
retains the completed word (nothing resets them until an iterator is
drawn from). -/
theorem C2_no_client_word_retained (m : Machine) (h : m.index = 4)
    (hc : m.client = none) :
    (handle_interrupt m).1.index = 4 ∧
    (handle_interrupt m).1.randomness = m.randomness ∧
    (∀ rs, Event.callbackInvoked rs ∉ (handle_interrupt m).2) ∧
    Event.startRng ∉ (handle_interrupt m).2 := by
  rw [hi_ready_none m h hc]
  refine ⟨h, rfl, ?_, ?_⟩
  · intro rs hrs
    simp at hrs
  · show Event.startRng ∉
      [Event.disableInts, Event.disableNvic, Event.clearPending]
    decide

/-- C2 witness: the amended behaviour at the state produced by the C2
scenario. -/
theorem C2_witness :
    (handle_interrupt (mkM 4 16843009 none 1)).1.index = 4 ∧
    (handle_interrupt (mkM 4 16843009 none 1)).1.randomness =
      (mkM 4 16843009 none 1).randomness ∧
    (∀ rs, Event.callbackInvoked rs ∉ (handle_interrupt (mkM 4 16843009 none 1)).2) ∧
    Event.startRng ∉ (handle_interrupt (mkM 4 16843009 none 1)).2 :=
  C2_no_client_word_retained (mkM 4 16843009 none 1) rfl rfl

/-- C3 counterexample: an invocation of `handle_interrupt` in the Ready
state (`index = 4`, here with no client) performs zero reads of the VALUE
register, not exactly one. -/
theorem C3_counterexample :
    ¬countReads (handle_interrupt (mkM 4 7 none 1)).2 = 1 := by
  decide

/-- C3 (amended): `handle_interrupt` reads the peripheral's VALUE
register exactly once when invoked in a Collecting state
(`index ∈ 0..3`) and performs no read at all in the Ready (`index = 4`)
and Invalid (`index > 4`) states. -/
theorem C3_reads_value_only_when_collecting (m : Machine) :
    countReads (handle_interrupt m).2 = if m.index ≤ 3 then 1 else 0 := by
  by_cases h3 : m.index ≤ 3
  · rw [hi_collect_events m h3, if_pos h3]
    rfl
  · rw [if_neg h3]
    by_cases h4 : m.index = 4
    · cases hc : m.client with
      | none =>
        rw [hi_ready_none m h4 hc]
        rfl
      | some cb =>
        rw [hi_ready_some m cb h4 hc]
        by_cases hret : cb.ret (drawN cb.draws (entryState m)).1 ≠ Continue.Done
        · rw [if_pos hret]
          rfl
        · rw [if_neg hret]
          rfl
    · rw [hi_invalid m (by omega)]
      rfl

/-- C4: drawing from the Delivery Iterator with `index = 4` yields
exactly the accumulator, resets `index` and `randomness` to 0, and a
second draw from the now-stale iterator yields nothing; drawing with
`index ≠ 4` yields nothing and mutates no state. -/
theorem C4_iterator_one_shot (m : Machine) :
    (m.index = 4 →
      (trngIter_next m).1 = some m.randomness ∧
      (trngIter_next m).2.index = 0 ∧
      (trngIter_next m).2.randomness = 0 ∧
      (trngIter_next (trngIter_next m).2).1 = none) ∧
    (m.index ≠ 4 → trngIter_next m = (none, m)) := by
  constructor
  · intro h4
    refine ⟨?_, ?_, ?_, ?_⟩ <;> simp [trngIter_next, h4]
  · intro h4
    simp [trngIter_next, h4]

/-- C4 witness: the one-shot behaviour at `index = 4`,
`randomness = 99`. -/
theorem C4_witness :
    (trngIter_next (mkM 4 99 none 0)).1 = some (mkM 4 99 none 0).randomness ∧
    (trngIter_next (mkM 4 99 none 0)).2.index = 0 ∧
    (trngIter_next (mkM 4 99 none 0)).2.randomness = 0 ∧
    (trngIter_next (trngIter_next (mkM 4 99 none 0)).2).1 = none :=
  (C4_iterator_one_shot (mkM 4 99 none 0)).1 rfl

/-- C5: in the Ready state with a client registered, the handler invokes
the client's `randomness_available` callback with the Delivery Iterator,
and calls `start_rng` (re-arms generation) precisely when the callback's
return value is not `Done`. -/
theorem C5_ready_callback_rearm (m : Machine) (cb : ClientModel)
    (h : m.index = 4) (hc : m.client = some cb) :
    Event.callbackInvoked (drawN cb.draws m).1 ∈ (handle_interrupt m).2 ∧
    (Event.startRng ∈ (handle_interrupt m).2 ↔
      cb.ret (drawN cb.draws m).1 ≠ Continue.Done) := by
  have he := (drawN_congr cb.draws (entryState m) m rfl rfl).1
  rw [hi_ready_some m cb h hc, he]
  by_cases hret : cb.ret (drawN cb.draws m).1 ≠ Continue.Done
  · rw [if_pos hret]
    exact ⟨by simp, by simp [hret]⟩
  · rw [if_neg hret]
    simp only [ne_eq, not_not] at hret
    exact ⟨by simp, by simp [hret]⟩

/-- A client that draws once and always asks for more randomness. -/
def moreClient : ClientModel :=
  { draws := 1, ret := fun _ => Continue.More }

/-- A client that draws once and is immediately done. -/
def doneClient : ClientModel :=
  { draws := 1, ret := fun _ => Continue.Done }

/-- A client that returns without drawing from the iterator. -/
def idleClient : ClientModel :=
  { draws := 0, ret := fun _ => Continue.Done }

/-- C5 witness: a Ready-state machine with a registered more-please
client. -/
theorem C5_witness :
    Event.callbackInvoked (drawN moreClient.draws (mkM 4 5 (some moreClient) 0)).1 ∈
      (handle_interrupt (mkM 4 5 (some moreClient) 0)).2 ∧
    (Event.startRng ∈ (handle_interrupt (mkM 4 5 (some moreClient) 0)).2 ↔
      moreClient.ret (drawN moreClient.draws (mkM 4 5 (some moreClient) 0)).1 ≠
        Continue.Done) :=
  C5_ready_callback_rearm (mkM 4 5 (some moreClient) 0) moreClient rfl rfl

/-- C6: an interrupt in a Collecting state (`index ≤ 3`) ORs the byte
read from the VALUE register, shifted left by `8 * index` bits, into the
accumulator, increments `index`, and unconditionally re-arms generation
(`start_rng`: START task written, peripheral interrupt enables set, NVIC
enabled, VALRDY event cleared) — including when `index + 1 = 4`. -/
theorem C6_collecting_step (m : Machine) (h : m.index ≤ 3)
    (hv : m.value < 256) :
    (handle_interrupt m).1.index = m.index + 1 ∧
    (handle_interrupt m).1.randomness =
      m.randomness ||| m.value <<< (8 * m.index) ∧
    Event.startRng ∈ (handle_interrupt m).2 ∧
    (handle_interrupt m).1.task_start = 1 ∧
    (handle_interrupt m).1.inten = 1 ∧
    (handle_interrupt m).1.intenset = 1 ∧
    (handle_interrupt m).1.event_valrdy = 0 ∧
    (handle_interrupt m).1.nvic_enabled = true := by
  refine ⟨hi_collect_index m h, ?_, ?_, ?_, ?_, ?_, ?_, ?_⟩
  · rw [hi_collect_randomness m h, byte_shift_mod m.value m.index hv h]
  · rw [hi_collect_events m h]
    simp
  all_goals (rw [handle_interrupt_eq, entryState_index, if_pos h]; rfl)

/-- C6 witness: the fourth byte (`index = 3`) still re-arms
generation. -/
theorem C6_witness :
    (handle_interrupt (mkM 3 80 none 200)).1.index = (mkM 3 80 none 200).index + 1 ∧
    (handle_interrupt (mkM 3 80 none 200)).1.randomness =
      (mkM 3 80 none 200).randomness ||| (mkM 3 80 none 200).value <<< (8 * (mkM 3 80 none 200).index) ∧
    Event.startRng ∈ (handle_interrupt (mkM 3 80 none 200)).2 ∧
    (handle_interrupt (mkM 3 80 none 200)).1.task_start = 1 ∧
    (handle_interrupt (mkM 3 80 none 200)).1.inten = 1 ∧
    (handle_interrupt (mkM 3 80 none 200)).1.intenset = 1 ∧
    (handle_interrupt (mkM 3 80 none 200)).1.event_valrdy = 0 ∧
    (handle_interrupt (mkM 3 80 none 200)).1.nvic_enabled = true :=
  C6_collecting_step (mkM 3 80 none 200) (by decide) (by decide)

/-- C7: an interrupt with `index > 4` resets `index` and `randomness` to
0, invokes no callback, delivers no word, does not read the VALUE
register, and does not re-arm generation. -/
theorem C7_invalid_resets (m : Machine) (h : 4 < m.index) :
    (handle_interrupt m).1.index = 0 ∧
    (handle_interrupt m).1.randomness = 0 ∧
    (∀ rs, Event.callbackInvoked rs ∉ (handle_interrupt m).2) ∧
    Event.startRng ∉ (handle_interrupt m).2 ∧
    Event.readValue ∉ (handle_interrupt m).2 := by
  rw [hi_invalid m h]
  refine ⟨rfl, rfl, ?_, ?_, ?_⟩
  · intro rs hrs
    simp at hrs
  · show Event.startRng ∉
      [Event.disableInts, Event.disableNvic, Event.clearPending]
    decide
  · show Event.readValue ∉
      [Event.disableInts, Event.disableNvic, Event.clearPending]
    decide

/-- C7 witness: recovery from the forced state `index = 5`. -/
theorem C7_witness :
    (handle_interrupt (mkM 5 7 none 3)).1.index = 0 ∧
    (handle_interrupt (mkM 5 7 none 3)).1.randomness = 0 ∧
    (∀ rs, Event.callbackInvoked rs ∉ (handle_interrupt (mkM 5 7 none 3)).2) ∧
    Event.startRng ∉ (handle_interrupt (mkM 5 7 none 3)).2 ∧
    Event.readValue ∉ (handle_interrupt (mkM 5 7 none 3)).2 :=
  C7_invalid_resets (mkM 5 7 none 3) (by decide)

/-- C9: every `handle_interrupt` invocation begins with the disable
sequence: write 1 to the peripheral's INTENCLR register and 0 to INTEN
(`disable_interrupts`), disable the NVIC line for this source
(`disable_nvic`), and clear the pending NVIC flag for this source —
before any other action. -/
theorem C9_disable_sequence (m : Machine) :
    (entryState m).intenclr = 1 ∧
    (entryState m).inten = 0 ∧
    (entryState m).nvic_enabled = false ∧
    (entryState m).nvic_pending = false ∧
    (handle_interrupt m).2.take 3 =
      [Event.disableInts, Event.disableNvic, Event.clearPending] := by
  refine ⟨rfl, rfl, rfl, rfl, ?_⟩
  by_cases h3 : m.index ≤ 3
  · rw [hi_collect_events m h3]
    rfl
  · by_cases h4 : m.index = 4
    · cases hc : m.client with
      | none =>
        rw [hi_ready_none m h4 hc]
        rfl
      | some cb =>
        rw [hi_ready_some m cb h4 hc]
        by_cases hret : cb.ret (drawN cb.draws (entryState m)).1 ≠ Continue.Done
        · rw [if_pos hret]
          rfl
        · rw [if_neg hret]
          rfl
    · rw [hi_invalid m (by omega)]
      rfl

/-- C8: in every state reachable from the initial state by interrupts
(hardware bytes below 256) and iterator draws, `index` is at most 4 and
the accumulator holds nonzero bits only at byte positions strictly below
`index` (`randomness < 2 ^ (8 * index)`); moreover a collecting step only
ORs bits in, never clearing a previously accumulated bit. -/
theorem C8_accumulator_invariant :
    (∀ i r, Reachable i r → i ≤ 4 ∧ r < 2 ^ (8 * i)) ∧
    (∀ (m : Machine) (k : Nat), m.index ≤ 3 →
      m.randomness.testBit k = true →
      (handle_interrupt m).1.randomness.testBit k = true) := by
  constructor
  · intro i r h
    induction h with
    | init =>
      exact ⟨by omega, by norm_num⟩
    | step m hm hv ih =>
      by_cases h3 : m.index ≤ 3
      · constructor
        · rw [hi_collect_index m h3]
          omega
        · rw [hi_collect_index m h3, hi_collect_randomness m h3,
            byte_shift_mod m.value m.index hv h3]
          apply or_lt_two_pow
          · exact lt_of_lt_of_le ih.2
              (Nat.pow_le_pow_right (by norm_num) (by omega))
          · rw [Nat.shiftLeft_eq]
            calc m.value * 2 ^ (8 * m.index)
                < 256 * 2 ^ (8 * m.index) :=
                  (Nat.mul_lt_mul_right (Nat.two_pow_pos _)).mpr hv
              _ = 2 ^ (8 * (m.index + 1)) := by
                  rw [show (256 : Nat) = 2 ^ 8 by norm_num, ← pow_add]
                  congr 1
                  omega
      · by_cases h4 : m.index = 4
        · cases hc : m.client with
          | none =>
            rw [hi_ready_none m h4 hc]
            exact ⟨ih.1, ih.2⟩
          | some cb =>
            rw [hi_ready_some m cb h4 hc]
            have hd := drawN_inv cb.draws (entryState m) ih.1 ih.2
            by_cases hret : cb.ret (drawN cb.draws (entryState m)).1 ≠ Continue.Done
            · rw [if_pos hret]
              exact ⟨hd.1, hd.2⟩
            · rw [if_neg hret]
              exact ⟨hd.1, hd.2⟩
        · rw [hi_invalid m (by omega)]
          exact ⟨by show (0 : Nat) ≤ 4; decide,
                 by show (0 : Nat) < 2 ^ (8 * 0); decide⟩
    | draw m hm ih =>
      exact trngIter_next_inv m ih.1 ih.2
  · intro m k h3 htb
    rw [hi_collect_randomness m h3, Nat.testBit_lor, htb, Bool.true_or]

/-- C8 witness: one interrupt from the initial state keeps the invariant,
and a collecting step at `index = 1` preserves bit 0 of the
accumulator. -/
theorem C8_witness :
    ((handle_interrupt (mkM 0 0 none 255)).1.index ≤ 4 ∧
     (handle_interrupt (mkM 0 0 none 255)).1.randomness <
       2 ^ (8 * (handle_interrupt (mkM 0 0 none 255)).1.index)) ∧
    (handle_interrupt (mkM 1 255 none 7)).1.randomness.testBit 0 = true :=
  ⟨C8_accumulator_invariant.1 _ _
      (Reachable.step (mkM 0 0 none 255) Reachable.init (by decide)),
   C8_accumulator_invariant.2 (mkM 1 255 none 7) 0 (by decide) (by decide)⟩

/-- C10: the Ready branch itself never mutates `index` or the
accumulator — after the callback they hold exactly whatever the client's
iterator draws left behind; in particular if the client returns without
drawing, `index` stays 4, the accumulator still holds the completed word,
and a subsequent interrupt with a client that draws once hands that
client the very same word. -/
theorem C10_ready_frame (m : Machine) (cb cb2 : ClientModel)
    (h : m.index = 4) (hc : m.client = some cb) (hd2 : cb2.draws = 1) :
    (handle_interrupt m).1.index = (drawN cb.draws m).2.index ∧
    (handle_interrupt m).1.randomness = (drawN cb.draws m).2.randomness ∧
    (cb.draws = 0 →
      (handle_interrupt m).1.index = 4 ∧
      (handle_interrupt m).1.randomness = m.randomness ∧
      Event.callbackInvoked [some m.randomness] ∈
        (handle_interrupt
          { (handle_interrupt m).1 with client := some cb2 }).2) := by
  obtain ⟨e1, e2, e3⟩ := drawN_congr cb.draws (entryState m) m rfl rfl
  have hfst : (handle_interrupt m).1.index =
        (drawN cb.draws (entryState m)).2.index ∧
      (handle_interrupt m).1.randomness =
        (drawN cb.draws (entryState m)).2.randomness := by
    rw [hi_ready_some m cb h hc]
    by_cases hret : cb.ret (drawN cb.draws (entryState m)).1 ≠ Continue.Done
    · rw [if_pos hret]
      exact ⟨rfl, rfl⟩
    · rw [if_neg hret]
      exact ⟨rfl, rfl⟩
  refine ⟨hfst.1.trans e2, hfst.2.trans e3, ?_⟩
  intro hd0
  have hidx4 : (handle_interrupt m).1.index = 4 := by
    rw [hfst.1.trans e2, hd0]
    exact h
  have hrand : (handle_interrupt m).1.randomness = m.randomness := by
    rw [hfst.2.trans e3, hd0]
    rfl
  refine ⟨hidx4, hrand, ?_⟩
  have hm2 := hi_ready_some
    { (handle_interrupt m).1 with client := some cb2 } cb2 hidx4 rfl
  have hiter : (trngIter_next
      (entryState { (handle_interrupt m).1 with client := some cb2 })).1 =
      some m.randomness := by
    have hidx' : (entryState
        { (handle_interrupt m).1 with client := some cb2 }).index = 4 := hidx4
    have hrand' : (entryState
        { (handle_interrupt m).1 with client := some cb2 }).randomness =
        m.randomness := hrand
    rw [trngIter_next, if_pos hidx', hrand']
  have hres : (drawN cb2.draws
      (entryState { (handle_interrupt m).1 with client := some cb2 })).1 =
      [some m.randomness] := by
    rw [hd2]
    show [(trngIter_next
      (entryState { (handle_interrupt m).1 with client := some cb2 })).1] =
      [some m.randomness]
    rw [hiter]
  rw [hm2, hres]
  by_cases hret2 : cb2.ret [some m.randomness] ≠ Continue.Done
  · rw [if_pos hret2]
    simp
  · rw [if_neg hret2]
    simp

/-- C10 witness: a client that does not draw leaves the word in place and
a drawing client then receives it. -/
theorem C10_witness :
    (handle_interrupt (mkM 4 42 (some idleClient) 0)).1.index =
      (drawN idleClient.draws (mkM 4 42 (some idleClient) 0)).2.index ∧
    (handle_interrupt (mkM 4 42 (some idleClient) 0)).1.randomness =
      (drawN idleClient.draws (mkM 4 42 (some idleClient) 0)).2.randomness ∧
    (idleClient.draws = 0 →
      (handle_interrupt (mkM 4 42 (some idleClient) 0)).1.index = 4 ∧
      (handle_interrupt (mkM 4 42 (some idleClient) 0)).1.randomness =
        (mkM 4 42 (some idleClient) 0).randomness ∧
      Event.callbackInvoked [some (mkM 4 42 (some idleClient) 0).randomness] ∈
        (handle_interrupt
          { (handle_interrupt (mkM 4 42 (some idleClient) 0)).1 with
              client := some moreClient }).2) :=
  C10_ready_frame (mkM 4 42 (some idleClient) 0) idleClient moreClient
    rfl rfl rfl

end TrngModel
